import Mathlib

/-!
Verification of the multi-stream downloader of the `vget` repository
(Go package `downloader`, file with `MultiStreamDownload`,
`calculateChunks`, `downloadChunk`, `downloadChunkWithAuth`,
`downloadChunkWithAuthOnce`).  Go `int`/`int64` values are modelled as
`Int`; Go's `/` on integers truncates toward zero, which is `Int.tdiv`.
-/

set_option autoImplicit false

namespace Vget

/-- Go integer division (`/` on `int64`) truncates toward zero, which is
exactly `Int.tdiv`.  Every division performed by the planner has nonnegative
operands, where `Int.tdiv` agrees with Euclidean division. -/
def goDiv (a b : Int) : Int := Int.tdiv a b

/-- The Go struct `chunk`: a portion of the file to download.  `index` is the
ordinal index, `start` and `end` are inclusive byte offsets (Go fields
`index int`, `start int64`, `end int64`). -/
structure Chunk where
  index : Int
  start : Int
  «end» : Int
deriving DecidableEq, Repr

/-- The Go struct `MultiStreamConfig`: number of parallel streams, chunk size
in bytes, buffer size per stream. -/
structure MultiStreamConfig where
  streams : Int
  chunkSize : Int
  bufferSize : Int
deriving DecidableEq, Repr

/-- Go `DefaultMultiStreamConfig`: 8 streams, 16MB chunks, 128KB buffers. -/
def DefaultMultiStreamConfig : MultiStreamConfig :=
  ⟨8, 16 * 1024 * 1024, 128 * 1024⟩

/-- The emission loop of `calculateChunks`
(`for i := int64(0); i < numChunks; i++`).  `fuel` is the number of remaining
loop iterations (`numChunks - i`), `i` the loop variable, `start` the running
start offset.  Each iteration computes `end := start + chunkSize - 1`, clamps
it to `totalSize - 1`, appends the chunk, advances `start := end + 1` and
breaks once `start >= totalSize`. -/
def calcLoop (totalSize chunkSize : Int) : Nat → Int → Int → List Chunk
  | 0, _, _ => []
  | fuel + 1, i, start =>
    let e0 := start + chunkSize - 1
    let e := if totalSize ≤ e0 then totalSize - 1 else e0
    let c : Chunk := ⟨i, start, e⟩
    if totalSize ≤ e + 1 then [c]
    else c :: calcLoop totalSize chunkSize fuel (i + 1) (e + 1)

/-- Go `calculateChunks(totalSize int64, streams int, chunkSize int64)`:
if the file fits in one chunk return a single chunk `[0, totalSize-1]`;
otherwise compute `numChunks = ceil(totalSize/chunkSize)` via
`(totalSize + chunkSize - 1) / chunkSize`, cap it at `streams * 4`
(recomputing the chunk size as `(totalSize + maxChunks - 1) / maxChunks`
when the cap bites), then emit chunks left to right. -/
def calculateChunks (totalSize : Int) (streams : Int) (chunkSize : Int) :
    List Chunk :=
  if totalSize ≤ chunkSize then [⟨0, 0, totalSize - 1⟩]
  else
    let numChunks := goDiv (totalSize + chunkSize - 1) chunkSize
    let maxChunks := streams * 4
    if maxChunks < numChunks then
      calcLoop totalSize (goDiv (totalSize + maxChunks - 1) maxChunks)
        maxChunks.toNat 0 0
    else
      calcLoop totalSize chunkSize numChunks.toNat 0 0

/-- Specification-side predicate: `chainFrom T i s l` holds when the chunks
of `l` carry consecutive ordinal indices starting at `i`, the first chunk
starts exactly at `s`, consecutive chunks are contiguous (`end + 1` of one is
`start` of the next), every chunk is nonempty (`start ≤ end`), and the last
chunk ends at `T - 1`.  `chainFrom T 0 0 l = true` says `l` exactly
partitions `[0, T)` with ordinal indices `0..N-1` in emission order. -/
def chainFrom (T : Int) : Int → Int → List Chunk → Bool
  | _, _, [] => false
  | i, s, c :: rest =>
    c.index == i && c.start == s && decide (c.start ≤ c.«end») &&
      (match rest with
       | [] => c.«end» == T - 1
       | _ :: _ => chainFrom T (i + 1) (c.«end» + 1) rest)

/-- Result of one call to `downloadChunkWithAuthOnce` as observed by the
retry loop of `downloadChunkWithAuth`: the bytes credited to the shared
counter during the attempt (`bytesWritten`, always nonnegative), and whether
the attempt returned a nil error. -/
structure AttemptResult where
  bytes : Nat
  ok : Bool
deriving DecidableEq, Repr

/-- Environment of one `downloadChunkWithAuth` call: what each attempt
(0-based) would return, and where the context is observed cancelled —
`cancelledBeforeBackoff i` is the `select` on `ctx.Done()` during the
backoff preceding attempt `i`, `cancelledAfterAttempt i` the `ctx.Err()`
check following attempt `i`. -/
structure RetryEnv where
  result : Nat → AttemptResult
  cancelledBeforeBackoff : Nat → Bool
  cancelledAfterAttempt : Nat → Bool

inductive RetryOutcome where
  | ok
  | cancelled
  | exhausted
deriving DecidableEq, Repr

/-- Observable effects of the retry loop: the net change this chunk
contributed to the shared `multiStreamState.downloaded` counter (via
`addBytes`), the backoff delays slept in seconds in order, and the number of
attempts started. -/
structure RetryState where
  counter : Int
  backoffs : List Int
  attempts : Nat
deriving DecidableEq, Repr

structure RetryResult where
  outcome : RetryOutcome
  state : RetryState
deriving DecidableEq, Repr

/-- The `for attempt := 0; attempt < maxRetries; attempt++` loop of
`downloadChunkWithAuth`.  `fuel` is the number of remaining iterations
(`maxRetries - attempt`) and `prevBytes` is `previousAttemptBytes`.  For
`attempt > 0` the loop first undoes the failed attempt's credit when
positive (`state.addBytes(-previousAttemptBytes)`), then selects between
`ctx.Done()` (abort, no sleep) and sleeping the exponential backoff of
`2^(attempt-1)` seconds; it then runs `downloadChunkWithAuthOnce` (which
credits its bytes), returns on success, and otherwise retries unless
`ctx.Err()` is non-nil. -/
def retryLoop (env : RetryEnv) : Nat → Nat → Nat → RetryState → RetryResult
  | 0, _, _, st => ⟨.exhausted, st⟩
  | fuel + 1, attempt, prevBytes, st =>
    let body : RetryState → RetryResult := fun stB =>
      let r := env.result attempt
      let stA : RetryState :=
        { stB with counter := stB.counter + (r.bytes : Int),
                   attempts := stB.attempts + 1 }
      if r.ok then ⟨.ok, stA⟩
      else if env.cancelledAfterAttempt attempt then ⟨.cancelled, stA⟩
      else retryLoop env fuel (attempt + 1) r.bytes stA
    if 0 < attempt then
      let st1 : RetryState :=
        if 0 < prevBytes then
          { st with counter := st.counter - (prevBytes : Int) }
        else st
      if env.cancelledBeforeBackoff attempt then ⟨.cancelled, st1⟩
      else
        body { st1 with
                backoffs := st1.backoffs ++ [(2 : Int) ^ (attempt - 1)] }
    else
      body st

/-- `downloadChunkWithAuth`: `maxRetries = 5` total attempts, starting at
attempt 0 with no previously credited bytes and zero net counter change. -/
def downloadChunkWithAuth (env : RetryEnv) : RetryResult :=
  retryLoop env 5 0 0 ⟨0, [], 0⟩

inductive ReadErr where
  | eof
  | other
deriving DecidableEq, Repr

/-- One iteration's observation of the response body inside a fetch attempt:
`resp.Body.Read(buf)` returns `n` bytes together with a possible error
(`io.EOF` or another read error); when `n > 0` the bytes are handed to
`file.WriteAt`, which reports `written` bytes written and whether it failed
(`writeErr`; Go's `WriteAt` writes all `n` bytes whenever it returns no
error). -/
structure ReadEvent where
  n : Nat
  err : Option ReadErr
  writeErr : Bool
  written : Nat
deriving DecidableEq, Repr

inductive OnceStatus where
  | ok
  | connectFailed
  | badStatus
  | writeFailed
  | incompleteChunk
  | readFailed
deriving DecidableEq, Repr

/-- Return value of a single fetch attempt: the bytes credited to the shared
counter (`totalWritten` in the auth variant) and how the attempt ended. -/
structure OnceResult where
  totalWritten : Int
  status : OnceStatus
deriving DecidableEq, Repr

/-- The read/write loop of `downloadChunkWithAuthOnce`: on a write error the
attempt fails returning the bytes credited so far; otherwise `offset` and
`totalWritten` advance by the written bytes and the counter is credited; on
`io.EOF` the attempt verifies `offset < expectedEnd` and reports an
incomplete chunk if the content ended early, success otherwise; any other
read error fails the attempt.  `none` models an event list that ends before
the body does (the Go loop would still be blocked in `Read`). -/
def onceLoop (expectedEnd : Int) :
    List ReadEvent → Int → Int → Option OnceResult
  | [], _, _ => none
  | e :: rest, offset, totalWritten =>
    if 0 < e.n ∧ e.writeErr = true then some ⟨totalWritten, .writeFailed⟩
    else
      let offset' := if 0 < e.n then offset + (e.written : Int) else offset
      let total' :=
        if 0 < e.n then totalWritten + (e.written : Int) else totalWritten
      match e.err with
      | some .eof =>
          if offset' < expectedEnd then some ⟨total', .incompleteChunk⟩
          else some ⟨total', .ok⟩
      | some .other => some ⟨total', .readFailed⟩
      | none => onceLoop expectedEnd rest offset' total'

/-- Go `downloadChunkWithAuthOnce`: a request-creation or `client.Do` error
returns `(0, err)`; a status code other than 206 (`StatusPartialContent`) or
200 (`StatusOK`) returns `(0, err)`; otherwise the body is streamed starting
at `offset = c.start` with `expectedEnd = c.end + 1`. -/
def downloadChunkWithAuthOnce (c : Chunk) (connectErr : Bool)
    (statusCode : Int) (events : List ReadEvent) : Option OnceResult :=
  if connectErr then some ⟨0, .connectFailed⟩
  else if statusCode ≠ 206 ∧ statusCode ≠ 200 then some ⟨0, .badStatus⟩
  else onceLoop (c.«end» + 1) events c.start 0

/-- The read/write loop of the unauthenticated `downloadChunk`: identical to
the loop of `downloadChunkWithAuthOnce` except that on `io.EOF` it simply
breaks and returns nil — it never verifies how many bytes arrived.  The
`totalWritten` of the result records the bytes credited via `addBytes`. -/
def chunkLoopNoVerify : List ReadEvent → Int → Int → Option OnceResult
  | [], _, _ => none
  | e :: rest, offset, credited =>
    if 0 < e.n ∧ e.writeErr = true then some ⟨credited, .writeFailed⟩
    else
      let offset' := if 0 < e.n then offset + (e.written : Int) else offset
      let credited' :=
        if 0 < e.n then credited + (e.written : Int) else credited
      match e.err with
      | some .eof => some ⟨credited', .ok⟩
      | some .other => some ⟨credited', .readFailed⟩
      | none => chunkLoopNoVerify rest offset' credited'

/-- Go `downloadChunk` (the unauthenticated fetcher, no retry logic): same
request/status handling as the auth variant, then the no-verification read
loop starting at `offset = c.start`. -/
def downloadChunk (c : Chunk) (connectErr : Bool) (statusCode : Int)
    (events : List ReadEvent) : Option OnceResult :=
  if connectErr then some ⟨0, .connectFailed⟩
  else if statusCode ≠ 206 ∧ statusCode ≠ 200 then some ⟨0, .badStatus⟩
  else chunkLoopNoVerify events c.start 0

/-- The probe (HEAD) response as seen by `MultiStreamDownload`: Go's
`resp.ContentLength` (which is `-1` when the server sent no Content-Length)
and `resp.Header.Get("Accept-Ranges")` (which is `""` when the header is
absent). -/
structure ProbeResponse where
  contentLength : Int
  acceptRanges : String
deriving DecidableEq, Repr

/-- The route a download job takes after the probe, before any transfer:
`fatalNoLength` is the error return `"server did not return Content-Length"`
(no chunks planned, no output file created, no workers started);
`singleStreamFallback` is the sequential whole-file path (no chunks, no
workers, not an error); `multiStream chunks` creates the output file,
preallocates it, and hands the planned chunks to `streams` workers. -/
inductive DownloadPath where
  | fatalNoLength
  | singleStreamFallback
  | multiStream (chunks : List Chunk)
deriving DecidableEq, Repr

/-- The pre-transfer decision logic of `MultiStreamDownload`, in source
order: fail if `totalSize <= 0`; fall back to the single-stream path
(`downloadWithProgress`) if `Accept-Ranges` is not exactly `"bytes"`;
otherwise plan chunks with `calculateChunks` and start the worker pool. -/
def multiStreamPlan (resp : ProbeResponse) (config : MultiStreamConfig) :
    DownloadPath :=
  if resp.contentLength ≤ 0 then .fatalNoLength
  else if resp.acceptRanges ≠ "bytes" then .singleStreamFallback
  else .multiStream
    (calculateChunks resp.contentLength config.streams config.chunkSize)

/-- The pre-transfer decision logic of `MultiStreamDownloadWithAuth`: the
total size is supplied by the caller and never checked; the job falls back
to `downloadWithAuthSingleStream` whenever the probed `Accept-Ranges` header
is not exactly `"bytes"`, and otherwise plans chunks and starts workers. -/
def multiStreamAuthPlan (acceptRanges : String) (totalSize : Int)
    (config : MultiStreamConfig) : DownloadPath :=
  if acceptRanges ≠ "bytes" then .singleStreamFallback
  else .multiStream (calculateChunks totalSize config.streams config.chunkSize)

/-- One recorded chunk error
(`fmt.Errorf("chunk %d failed: %w", c.index, err)`): the worker loop appends
exactly one to `multiStreamState.errors` per chunk whose fetch returned a
non-nil error. -/
structure ChunkError where
  chunkIndex : Int
deriving DecidableEq, Repr

/-- The coordinator's error reconciliation after `wg.Wait()`: with the
collected error list, the job fails reporting the error count and the first
recorded error (`"download failed with %d errors: %v"` with `len(errs)` and
`errs[0]`), and succeeds only when the list is empty. -/
def reconcile (errs : List ChunkError) : Except (Nat × ChunkError) Unit :=
  match errs with
  | [] => .ok ()
  | e :: rest => .error ((e :: rest).length, e)

/-- The error collection performed by the worker loop: given each chunk's
index and whether its fetch ultimately succeeded, the recorded errors are
the failed chunks, one error each, in completion order. -/
def collectErrors (results : List (Int × Bool)) : List ChunkError :=
  results.filterMap fun p => if p.2 then none else some ⟨p.1⟩

/-- A concrete retry environment in which every attempt fails, crediting
`i + 3` bytes on attempt `i`, and the context is never cancelled. -/
def envAllFail : RetryEnv :=
  ⟨fun i => ⟨i + 3, false⟩, fun _ => false, fun _ => false⟩

/-- A concrete retry environment in which every attempt would fail crediting
5 bytes, and the context is observed cancelled during the backoff select
before attempt 2. -/
def envCancelAt2 : RetryEnv :=
  ⟨fun _ => ⟨5, false⟩, fun i => decide (i = 2), fun _ => false⟩

/-- A concrete retry environment for a 500-byte chunk whose first attempt
fails after crediting 100 bytes and whose retry succeeds crediting all
500 bytes; the context is never cancelled. -/
def envFailOnce : RetryEnv :=
  ⟨fun i => if i = 0 then ⟨100, false⟩ else ⟨500, true⟩,
    fun _ => false, fun _ => false⟩

/-- One-step unfolding of `chainFrom` on a list with at least two chunks. -/
lemma chainFrom_cons_cons (T i s : Int) (c c2 : Chunk) (rest : List Chunk) :
    chainFrom T i s (c :: c2 :: rest) =
      (c.index == i && c.start == s && decide (c.start ≤ c.«end») &&
        chainFrom T (i + 1) (c.«end» + 1) (c2 :: rest)) := rfl

/-- Ceiling-division facts used by the planner: for `1 ≤ a` and `1 ≤ b`,
the Go expression `(a + b - 1) / b` is at least 1 and covers `a` when
multiplied back by `b`. -/
lemma goDiv_ceil_facts (a b : Int) (ha : 1 ≤ a) (hb : 1 ≤ b) :
    1 ≤ goDiv (a + b - 1) b ∧ a ≤ goDiv (a + b - 1) b * b := by
  have hnum : (0 : Int) ≤ a + b - 1 := by omega
  have hdiv : goDiv (a + b - 1) b = (a + b - 1) / b :=
    Int.tdiv_eq_ediv hnum (by omega)
  have hid : b * ((a + b - 1) / b) + (a + b - 1) % b = a + b - 1 :=
    Int.ediv_add_emod _ _
  have hmod0 : (0 : Int) ≤ (a + b - 1) % b := Int.emod_nonneg _ (by omega)
  have hmodlt : (a + b - 1) % b < b := Int.emod_lt_of_pos _ (by omega)
  set q := (a + b - 1) / b with hq
  have hcov : a ≤ b * q := by linarith
  have hq1 : 1 ≤ q := by
    by_contra hcon
    push_neg at hcon
    have hnp : b * q ≤ 0 :=
      mul_nonpos_of_nonneg_of_nonpos (by omega) (by omega)
    linarith
  rw [hdiv]
  refine ⟨hq1, ?_⟩
  have hcomm : b * q = q * b := mul_comm b q
  linarith

/-- The emission loop produces a well-formed chain whenever the chunk size is
positive, there is something left to emit (`s < T`) and the fuel suffices to
cover the remaining bytes (`T - s ≤ fuel * cs`); moreover it emits at most
`fuel` chunks. -/
lemma calcLoop_chain (T cs : Int) (hcs : 1 ≤ cs) :
    ∀ (fuel : Nat) (i s : Int), s < T → T - s ≤ (fuel : Int) * cs →
      chainFrom T i s (calcLoop T cs fuel i s) = true ∧
      (calcLoop T cs fuel i s).length ≤ fuel := by
  intro fuel
  induction fuel with
  | zero =>
    intro i s hs hle
    simp only [Nat.cast_zero, zero_mul] at hle
    omega
  | succ n ih =>
    intro i s hs hle
    have hle' : T - s ≤ (n : Int) * cs + cs := by
      have h' : ((n + 1 : Nat) : Int) * cs = (n : Int) * cs + cs := by
        push_cast
        ring
      rw [h'] at hle
      exact hle
    simp only [calcLoop]
    by_cases hclamp : T ≤ s + cs - 1
    · -- clamped: the chunk ends at T - 1 and the loop breaks
      rw [if_pos hclamp, if_pos (by omega)]
      refine ⟨?_, by simp⟩
      simp [chainFrom]
      omega
    · rw [if_neg hclamp]
      by_cases hstop : T ≤ s + cs - 1 + 1
      · -- unclamped but the next start reaches T: the end is exactly T - 1
        rw [if_pos hstop]
        refine ⟨?_, by simp⟩
        simp [chainFrom]
        omega
      · -- the loop continues with start s + cs
        rw [if_neg hstop]
        have harith : s + cs - 1 + 1 = s + cs := by omega
        rw [harith]
        have hrec := ih (i + 1) (s + cs) (by omega) (by linarith)
        rcases hrest : calcLoop T cs n (i + 1) (s + cs) with _ | ⟨c2, rest2⟩
        · rw [hrest] at hrec
          simp [chainFrom] at hrec
        · rw [hrest] at hrec
          refine ⟨?_, ?_⟩
          · rw [chainFrom_cons_cons]
            simp only [harith]
            simp [hrec.1]
            omega
          · have h2 := hrec.2
            simp only [List.length_cons] at h2 ⊢
            omega

/-- Iteration of the retry loop at attempt 0: no subtraction, no backoff, no
cancellation check before the attempt; the attempt's bytes are credited. -/
lemma retryLoop_step0 (env : RetryEnv) (fuel prev : Nat) (st : RetryState) :
    retryLoop env (fuel + 1) 0 prev st =
      (if (env.result 0).ok then
        (⟨.ok, { st with
          counter := st.counter + ((env.result 0).bytes : Int),
          attempts := st.attempts + 1 }⟩ : RetryResult)
      else if env.cancelledAfterAttempt 0 then
        ⟨.cancelled, { st with
          counter := st.counter + ((env.result 0).bytes : Int),
          attempts := st.attempts + 1 }⟩
      else retryLoop env fuel 1 (env.result 0).bytes
        { st with counter := st.counter + ((env.result 0).bytes : Int),
                  attempts := st.attempts + 1 }) := by
  simp [retryLoop]

/-- Iteration of the retry loop at a positive attempt that is cancelled
during the backoff select: aborts immediately, records no sleep and starts
no attempt; only the failed credit is undone. -/
lemma retryLoop_stepCancel (env : RetryEnv) (fuel attempt prev : Nat)
    (st : RetryState) (hpos : 0 < attempt)
    (hcb : env.cancelledBeforeBackoff attempt = true) :
    retryLoop env (fuel + 1) attempt prev st =
      ⟨.cancelled,
        if 0 < prev then { st with counter := st.counter - (prev : Int) }
        else st⟩ := by
  by_cases hp : 0 < prev <;> simp [retryLoop, hpos, hcb, hp]

/-- Iteration of the retry loop at a positive attempt that sleeps its backoff
and fails, with the context still live: the failed credit of the previous
attempt is undone, `2^(attempt-1)` seconds are slept, the new attempt's
bytes are credited, and the loop continues. -/
lemma retryLoop_stepFail (env : RetryEnv) (fuel attempt prev : Nat)
    (st : RetryState) (hpos : 0 < attempt)
    (hcb : env.cancelledBeforeBackoff attempt = false)
    (hok : (env.result attempt).ok = false)
    (hca : env.cancelledAfterAttempt attempt = false) :
    retryLoop env (fuel + 1) attempt prev st =
      retryLoop env fuel (attempt + 1) (env.result attempt).bytes
        { counter := st.counter - (if 0 < prev then (prev : Int) else 0) +
            ((env.result attempt).bytes : Int),
          backoffs := st.backoffs ++ [(2 : Int) ^ (attempt - 1)],
          attempts := st.attempts + 1 } := by
  by_cases hp : 0 < prev <;> simp [retryLoop, hpos, hcb, hok, hca, hp]

/-- Iteration of the retry loop at a positive attempt that sleeps its backoff
and succeeds: the failed credit is undone, the sleep recorded, the new bytes
credited, and the loop returns success. -/
lemma retryLoop_stepOk (env : RetryEnv) (fuel attempt prev : Nat)
    (st : RetryState) (hpos : 0 < attempt)
    (hcb : env.cancelledBeforeBackoff attempt = false)
    (hok : (env.result attempt).ok = true) :
    retryLoop env (fuel + 1) attempt prev st =
      ⟨.ok,
        { counter := st.counter - (if 0 < prev then (prev : Int) else 0) +
            ((env.result attempt).bytes : Int),
          backoffs := st.backoffs ++ [(2 : Int) ^ (attempt - 1)],
          attempts := st.attempts + 1 }⟩ := by
  by_cases hp : 0 < prev <;> simp [retryLoop, hpos, hcb, hok, hp]

/-- Iteration of the retry loop at a positive attempt that sleeps its
backoff, fails, and then observes the context cancelled: the failed credit
is undone, the sleep recorded, the new bytes credited, and the loop aborts
with a cancellation outcome. -/
lemma retryLoop_stepFailCancel (env : RetryEnv) (fuel attempt prev : Nat)
    (st : RetryState) (hpos : 0 < attempt)
    (hcb : env.cancelledBeforeBackoff attempt = false)
    (hok : (env.result attempt).ok = false)
    (hca : env.cancelledAfterAttempt attempt = true) :
    retryLoop env (fuel + 1) attempt prev st =
      ⟨.cancelled,
        { counter := st.counter - (if 0 < prev then (prev : Int) else 0) +
            ((env.result attempt).bytes : Int),
          backoffs := st.backoffs ++ [(2 : Int) ^ (attempt - 1)],
          attempts := st.attempts + 1 }⟩ := by
  by_cases hp : 0 < prev <;> simp [retryLoop, hpos, hcb, hok, hca, hp]

/-- Invariant of the retry loop entered at a positive attempt: the attempt
counter grows by at most `fuel`, never shrinks, and the backoff delays slept
from here on are exactly `2^(attempt-1), 2^attempt, ...`, one per further
attempt actually started after a sleep. -/
lemma retryLoop_inv (env : RetryEnv) :
    ∀ (fuel attempt prev : Nat) (st : RetryState), 1 ≤ attempt →
      st.attempts = attempt →
      attempt ≤ (retryLoop env fuel attempt prev st).state.attempts ∧
      (retryLoop env fuel attempt prev st).state.attempts ≤ attempt + fuel ∧
      (retryLoop env fuel attempt prev st).state.backoffs =
        st.backoffs ++
          (List.range' (attempt - 1)
            ((retryLoop env fuel attempt prev st).state.attempts - attempt)).map
            (fun j => (2 : Int) ^ j) := by
  intro fuel
  induction fuel with
  | zero =>
    intro attempt prev st h1 hA
    simp [retryLoop, hA]
  | succ n ih =>
    intro attempt prev st h1 hA
    by_cases hcb : env.cancelledBeforeBackoff attempt = true
    · rw [retryLoop_stepCancel env n attempt prev st h1 hcb]
      by_cases hp : 0 < prev <;> simp [hp, hA]
    · rw [Bool.not_eq_true] at hcb
      rcases hok : (env.result attempt).ok with _ | _
      · by_cases hca : env.cancelledAfterAttempt attempt = true
        · rw [retryLoop_stepFailCancel env n attempt prev st h1 hcb hok hca]
          refine ⟨?_, ?_, ?_⟩
          · show attempt ≤ st.attempts + 1
            omega
          · show st.attempts + 1 ≤ attempt + (n + 1)
            omega
          · show st.backoffs ++ [(2 : Int) ^ (attempt - 1)] =
              st.backoffs ++
                (List.range' (attempt - 1) (st.attempts + 1 - attempt)).map
                  (fun j => (2 : Int) ^ j)
            have hr : st.attempts + 1 - attempt = 1 := by omega
            rw [hr, List.range'_one]
            simp
        · rw [Bool.not_eq_true] at hca
          rw [retryLoop_stepFail env n attempt prev st h1 hcb hok hca]
          set st2 : RetryState :=
            { counter := st.counter - (if 0 < prev then (prev : Int) else 0) +
                ((env.result attempt).bytes : Int),
              backoffs := st.backoffs ++ [(2 : Int) ^ (attempt - 1)],
              attempts := st.attempts + 1 } with hst2
          have hrec := ih (attempt + 1) (env.result attempt).bytes st2
            (by omega) (by simp [hst2, hA])
          refine ⟨by omega, by omega, ?_⟩
          rw [hrec.2.2]
          have hb2 : st2.backoffs =
              st.backoffs ++ [(2 : Int) ^ (attempt - 1)] := rfl
          rw [hb2, List.append_assoc, List.singleton_append]
          congr 1
          set m := (retryLoop env n (attempt + 1) (env.result attempt).bytes
            st2).state.attempts with hmdef
          have hm : attempt + 1 ≤ m := hrec.1
          have h3 : m - attempt = (m - (attempt + 1)) + 1 := by omega
          have h2 : attempt + 1 - 1 = (attempt - 1) + 1 := by omega
          rw [h3, List.range'_succ, h2]
          simp
      · rw [retryLoop_stepOk env n attempt prev st h1 hcb hok]
        refine ⟨?_, ?_, ?_⟩
        · show attempt ≤ st.attempts + 1
          omega
        · show st.attempts + 1 ≤ attempt + (n + 1)
          omega
        · show st.backoffs ++ [(2 : Int) ^ (attempt - 1)] =
            st.backoffs ++
              (List.range' (attempt - 1) (st.attempts + 1 - attempt)).map
                (fun j => (2 : Int) ^ j)
          have hr : st.attempts + 1 - attempt = 1 := by omega
          rw [hr, List.range'_one]
          simp

/-- C2 (amended): the chunk fetcher makes between 1 and 5 total attempts,
and the backoff delays slept before retries are exactly
`1s, 2s, 4s, ..., 2^(k-2)s` for `k` attempts made — i.e. successive values
1s, 2s, 4s, 8s for retries 2–5 (a 16s delay never occurs, since at most 4
retries follow the first attempt).  Moreover, if the first `k` attempts all
fail without the context being observed cancelled and the context is then
observed cancelled during the backoff select before attempt `k+1`, the
fetcher aborts immediately with a cancellation outcome: attempt `k+1` is
never started and no backoff is slept for it. -/
theorem C2_retry_attempts_and_backoff (env : RetryEnv) :
    (1 ≤ (downloadChunkWithAuth env).state.attempts ∧
      (downloadChunkWithAuth env).state.attempts ≤ 5 ∧
      (downloadChunkWithAuth env).state.backoffs =
        (List.range ((downloadChunkWithAuth env).state.attempts - 1)).map
          (fun j => (2 : Int) ^ j)) ∧
    (∀ k : Nat, 1 ≤ k → k < 5 →
      (∀ j, j < k → (env.result j).ok = false ∧
        env.cancelledAfterAttempt j = false) →
      (∀ j, 1 ≤ j → j < k → env.cancelledBeforeBackoff j = false) →
      env.cancelledBeforeBackoff k = true →
      (downloadChunkWithAuth env).outcome = .cancelled ∧
      (downloadChunkWithAuth env).state.attempts = k ∧
      (downloadChunkWithAuth env).state.backoffs =
        (List.range (k - 1)).map (fun j => (2 : Int) ^ j)) := by
  constructor
  · unfold downloadChunkWithAuth
    rw [show (5 : Nat) = 4 + 1 from rfl, retryLoop_step0]
    rcases hok : (env.result 0).ok with _ | _
    · by_cases hca : env.cancelledAfterAttempt 0 = true
      · simp [hok, hca]
      · rw [Bool.not_eq_true] at hca
        simp only [hok, hca, Bool.false_eq_true, if_false]
        have hrec := retryLoop_inv env 4 1 (env.result 0).bytes
          ⟨0 + ((env.result 0).bytes : Int), [], 0 + 1⟩ (by omega) rfl
        refine ⟨by omega, by omega, ?_⟩
        rw [hrec.2.2]
        simp [List.range_eq_range']
    · simp [hok]
  · intro k hk1 hk5 hfail hcbf hcbk
    unfold downloadChunkWithAuth
    interval_cases k
    · -- cancelled during the backoff before attempt 1 (the first retry)
      have h0 := hfail 0 (by omega)
      rw [show (5 : Nat) = 4 + 1 from rfl, retryLoop_step0]
      simp only [h0.1, h0.2, Bool.false_eq_true, if_false]
      rw [show (4 : Nat) = 3 + 1 from rfl,
        retryLoop_stepCancel env 3 1 (env.result 0).bytes _ (by omega) hcbk]
      by_cases hp : 0 < (env.result 0).bytes <;> simp [hp]
    · have h0 := hfail 0 (by omega)
      have h1 := hfail 1 (by omega)
      have hc1 := hcbf 1 (by omega) (by omega)
      rw [show (5 : Nat) = 4 + 1 from rfl, retryLoop_step0]
      simp only [h0.1, h0.2, Bool.false_eq_true, if_false]
      rw [show (4 : Nat) = 3 + 1 from rfl,
        retryLoop_stepFail env 3 1 (env.result 0).bytes _ (by omega) hc1
          h1.1 h1.2,
        show (3 : Nat) = 2 + 1 from rfl,
        retryLoop_stepCancel env 2 2 (env.result 1).bytes _ (by omega) hcbk]
      by_cases hp : 0 < (env.result 1).bytes <;> simp [hp] <;> decide
    · have h0 := hfail 0 (by omega)
      have h1 := hfail 1 (by omega)
      have h2 := hfail 2 (by omega)
      have hc1 := hcbf 1 (by omega) (by omega)
      have hc2 := hcbf 2 (by omega) (by omega)
      rw [show (5 : Nat) = 4 + 1 from rfl, retryLoop_step0]
      simp only [h0.1, h0.2, Bool.false_eq_true, if_false]
      rw [show (4 : Nat) = 3 + 1 from rfl,
        retryLoop_stepFail env 3 1 (env.result 0).bytes _ (by omega) hc1
          h1.1 h1.2,
        show (3 : Nat) = 2 + 1 from rfl,
        retryLoop_stepFail env 2 2 (env.result 1).bytes _ (by omega) hc2
          h2.1 h2.2,
        show (2 : Nat) = 1 + 1 from rfl,
        retryLoop_stepCancel env 1 3 (env.result 2).bytes _ (by omega) hcbk]
      by_cases hp : 0 < (env.result 2).bytes <;>
        simp [hp, List.range_eq_range'] <;> decide
    · have h0 := hfail 0 (by omega)
      have h1 := hfail 1 (by omega)
      have h2 := hfail 2 (by omega)
      have h3 := hfail 3 (by omega)
      have hc1 := hcbf 1 (by omega) (by omega)
      have hc2 := hcbf 2 (by omega) (by omega)
      have hc3 := hcbf 3 (by omega) (by omega)
      rw [show (5 : Nat) = 4 + 1 from rfl, retryLoop_step0]
      simp only [h0.1, h0.2, Bool.false_eq_true, if_false]
      rw [show (4 : Nat) = 3 + 1 from rfl,
        retryLoop_stepFail env 3 1 (env.result 0).bytes _ (by omega) hc1
          h1.1 h1.2,
        show (3 : Nat) = 2 + 1 from rfl,
        retryLoop_stepFail env 2 2 (env.result 1).bytes _ (by omega) hc2
          h2.1 h2.2,
        show (2 : Nat) = 1 + 1 from rfl,
        retryLoop_stepFail env 1 3 (env.result 2).bytes _ (by omega) hc3
          h3.1 h3.2,
        show (1 : Nat) = 0 + 1 from rfl,
        retryLoop_stepCancel env 0 4 (env.result 3).bytes _ (by omega) hcbk]
      by_cases hp : 0 < (env.result 3).bytes <;>
        simp [hp, List.range_eq_range'] <;> decide

/-- C2 counterexample: with every attempt failing and no cancellation, all 5
attempts are made and the successive backoff delays slept are exactly
1s, 2s, 4s, 8s — not 1s, 2s, 4s, 8s, 16s as the claim states: a 16-second
delay never occurs, because at most 4 retries follow the first attempt. -/
theorem C2_backoff_counterexample :
    (downloadChunkWithAuth envAllFail).state.attempts = 5 ∧
    (downloadChunkWithAuth envAllFail).state.backoffs = [1, 2, 4, 8] ∧
    (downloadChunkWithAuth envAllFail).state.backoffs ≠ [1, 2, 4, 8, 16] := by
  decide

theorem C2_retry_attempts_and_backoff_witness :
    (downloadChunkWithAuth envCancelAt2).outcome = .cancelled ∧
    (downloadChunkWithAuth envCancelAt2).state.attempts = 2 ∧
    (downloadChunkWithAuth envCancelAt2).state.backoffs =
      (List.range (2 - 1)).map (fun j => (2 : Int) ^ j) :=
  (C2_retry_attempts_and_backoff envCancelAt2).2 2 (by norm_num) (by norm_num)
    (fun j hj => ⟨rfl, rfl⟩)
    (fun j hj1 hj2 => by
      have hj : j = 1 := by omega
      subst hj
      rfl)
    (by rfl)

/-- C4: a chunk whose first fetch attempt fails after crediting `k` bytes to
the shared downloaded counter and whose retry then succeeds crediting the
chunk's length contributes net exactly `end - start + 1` to the shared
counter: the `k` bytes of the failed attempt are subtracted before the retry
begins, so bytes are never double-counted. -/
theorem C4_no_double_count (env : RetryEnv) (c : Chunk) (k : Nat)
    (h0ok : (env.result 0).ok = false)
    (h0b : (env.result 0).bytes = k)
    (h1ok : (env.result 1).ok = true)
    (h1b : ((env.result 1).bytes : Int) = c.«end» - c.start + 1)
    (hca : env.cancelledAfterAttempt 0 = false)
    (hcb : env.cancelledBeforeBackoff 1 = false) :
    (downloadChunkWithAuth env).outcome = .ok ∧
    (downloadChunkWithAuth env).state.counter = c.«end» - c.start + 1 := by
  unfold downloadChunkWithAuth
  rw [show (5 : Nat) = 4 + 1 from rfl, retryLoop_step0]
  simp only [h0ok, hca, Bool.false_eq_true, if_false]
  rw [show (4 : Nat) = 3 + 1 from rfl,
    retryLoop_stepOk env 3 1 (env.result 0).bytes _ (by omega) hcb h1ok]
  refine ⟨rfl, ?_⟩
  show (0 : Int) + ((env.result 0).bytes : Int) -
      (if 0 < (env.result 0).bytes then ((env.result 0).bytes : Int) else 0) +
      ((env.result 1).bytes : Int) = c.«end» - c.start + 1
  rw [h1b]
  by_cases hp : 0 < (env.result 0).bytes <;> simp [hp] <;> omega

theorem C4_no_double_count_witness :
    (downloadChunkWithAuth envFailOnce).outcome = .ok ∧
    (downloadChunkWithAuth envFailOnce).state.counter =
      (499 : Int) - 0 + 1 :=
  C4_no_double_count envFailOnce ⟨0, 0, 499⟩ 100 rfl rfl rfl
    (by norm_num [envFailOnce]) rfl rfl

/-- C9: a chunk that exhausts all 5 retry attempts keeps the bytes credited
during the final failed attempt in the shared counter — the subtraction of a
failed attempt's bytes happens only immediately before a subsequent retry —
so the chunk's net contribution after terminal failure is exactly the final
attempt's credited bytes (positive even though no chunk data is complete). -/
theorem C9_terminal_failure_keeps_last_credit (env : RetryEnv)
    (hfail : ∀ i, (env.result i).ok = false)
    (hcb : ∀ i, env.cancelledBeforeBackoff i = false)
    (hca : ∀ i, env.cancelledAfterAttempt i = false) :
    (downloadChunkWithAuth env).outcome = .exhausted ∧
    (downloadChunkWithAuth env).state.counter =
      ((env.result 4).bytes : Int) := by
  unfold downloadChunkWithAuth
  rw [show (5 : Nat) = 4 + 1 from rfl, retryLoop_step0]
  simp only [hfail 0, hca 0, Bool.false_eq_true, if_false]
  rw [show (4 : Nat) = 3 + 1 from rfl,
    retryLoop_stepFail env 3 1 (env.result 0).bytes _ (by omega) (hcb 1)
      (hfail 1) (hca 1),
    show (3 : Nat) = 2 + 1 from rfl,
    retryLoop_stepFail env 2 2 (env.result 1).bytes _ (by omega) (hcb 2)
      (hfail 2) (hca 2),
    show (2 : Nat) = 1 + 1 from rfl,
    retryLoop_stepFail env 1 3 (env.result 2).bytes _ (by omega) (hcb 3)
      (hfail 3) (hca 3),
    show (1 : Nat) = 0 + 1 from rfl,
    retryLoop_stepFail env 0 4 (env.result 3).bytes _ (by omega) (hcb 4)
      (hfail 4) (hca 4)]
  refine ⟨rfl, ?_⟩
  show (0 : Int) + ((env.result 0).bytes : Int) -
      (if 0 < (env.result 0).bytes then ((env.result 0).bytes : Int) else 0) +
      ((env.result 1).bytes : Int) -
      (if 0 < (env.result 1).bytes then ((env.result 1).bytes : Int) else 0) +
      ((env.result 2).bytes : Int) -
      (if 0 < (env.result 2).bytes then ((env.result 2).bytes : Int) else 0) +
      ((env.result 3).bytes : Int) -
      (if 0 < (env.result 3).bytes then ((env.result 3).bytes : Int) else 0) +
      ((env.result 4).bytes : Int) = ((env.result 4).bytes : Int)
  by_cases h0 : 0 < (env.result 0).bytes <;>
    by_cases h1 : 0 < (env.result 1).bytes <;>
    by_cases h2 : 0 < (env.result 2).bytes <;>
    by_cases h3 : 0 < (env.result 3).bytes <;>
    simp [h0, h1, h2, h3] <;> omega

theorem C9_terminal_failure_keeps_last_credit_witness :
    (downloadChunkWithAuth envAllFail).outcome = .exhausted ∧
    (downloadChunkWithAuth envAllFail).state.counter =
      ((envAllFail.result 4).bytes : Int) :=
  C9_terminal_failure_keeps_last_credit envAllFail (fun _ => rfl)
    (fun _ => rfl) (fun _ => rfl)

/-- The verified read loop can only report success when the final offset
reached at least `expectedEnd`, and reports an incomplete chunk exactly when
the body ended strictly before it; the credited bytes measure the offset
advance. -/
lemma onceLoop_spec (E : Int) :
    ∀ (events : List ReadEvent) (offset total : Int) (r : OnceResult),
      onceLoop E events offset total = some r →
      (r.status = .ok → E ≤ offset + (r.totalWritten - total)) ∧
      (r.status = .incompleteChunk →
        offset + (r.totalWritten - total) < E) := by
  intro events
  induction events with
  | nil =>
    intro offset total r h
    simp [onceLoop] at h
  | cons e rest ih =>
    obtain ⟨n, err, werr, written⟩ := e
    intro offset total r h
    rcases err with _ | er
    · simp only [onceLoop] at h
      split_ifs at h with hw hn
      · simp only [Option.some.injEq] at h
        subst h
        refine ⟨?_, ?_⟩ <;> intro hs <;> simp at hs
      · have hrec := ih (offset + (written : Int)) (total + (written : Int))
          r h
        refine ⟨?_, ?_⟩ <;> intro hs
        · have := hrec.1 hs
          omega
        · have := hrec.2 hs
          omega
      · exact ih offset total r h
    · rcases er with _ | _
      · simp only [onceLoop] at h
        split_ifs at h with hw hn hlt hlt <;>
          simp only [Option.some.injEq] at h <;> subst h <;>
          refine ⟨?_, ?_⟩ <;> intro hs <;> simp at hs ⊢ <;> omega
      · simp only [onceLoop] at h
        split_ifs at h with hw hn <;>
          simp only [Option.some.injEq] at h <;> subst h <;>
          refine ⟨?_, ?_⟩ <;> intro hs <;> simp at hs

/-- C3 (amended): the authenticated fetch attempt
`downloadChunkWithAuthOnce` returns success only when the exact expected
byte span `[start, end]` has been fully written (the bytes written from
`start` reach at least `end + 1`), and reports the incomplete-chunk failure
exactly when the response body ended (EOF) strictly before the expected end
offset.  (The unauthenticated `downloadChunk` does not perform this check —
see the counterexample.) -/
theorem C3_auth_success_requires_full_span (c : Chunk) (connectErr : Bool)
    (statusCode : Int) (events : List ReadEvent) (r : OnceResult)
    (h : downloadChunkWithAuthOnce c connectErr statusCode events = some r) :
    (r.status = .ok → c.«end» + 1 ≤ c.start + r.totalWritten) ∧
    (r.status = .incompleteChunk →
      c.start + r.totalWritten < c.«end» + 1) := by
  unfold downloadChunkWithAuthOnce at h
  split_ifs at h with hc hs
  · simp only [Option.some.injEq] at h
    subst h
    refine ⟨?_, ?_⟩ <;> intro hst <;> simp at hst
  · simp only [Option.some.injEq] at h
    subst h
    refine ⟨?_, ?_⟩ <;> intro hst <;> simp at hst
  · have hspec := onceLoop_spec (c.«end» + 1) events c.start 0 r h
    refine ⟨?_, ?_⟩ <;> intro hst
    · have := hspec.1 hst
      omega
    · have := hspec.2 hst
      omega

theorem C3_auth_success_requires_full_span_witness :
    (9 : Int) + 1 ≤ 0 + 10 :=
  (C3_auth_success_requires_full_span ⟨0, 0, 9⟩ false 206
    [⟨10, some .eof, false, 10⟩] ⟨10, .ok⟩ (by decide)).1 rfl

/-- C3 counterexample: the claim quantifies over every fetch attempt,
including the unauthenticated `downloadChunk` — but that fetcher treats a
body that ends before the expected end offset as success: for the chunk
`[0, 9]` a 206 response whose body delivers only 5 bytes before EOF returns
success (nil error) even though the span was not fully written. -/
theorem C3_short_read_counterexample :
    downloadChunk ⟨0, 0, 9⟩ false 206 [⟨5, some .eof, false, 5⟩] =
      some ⟨5, .ok⟩ ∧ (0 : Int) + 5 < 9 + 1 := by
  decide

/-- C1: for every totalSize > chunkSize with streams ≥ 1 and chunkSize ≥ 1,
the chunk list returned by `calculateChunks` exactly partitions
`[0, totalSize)`: first start 0, contiguous inclusive ranges, last end
`totalSize - 1`, ordinal indices 0..N-1 in emission order, and at most
`streams * 4` chunks. -/
theorem C1_calculateChunks_partition (T S C : Int)
    (hC : 1 ≤ C) (hS : 1 ≤ S) (hT : C < T) :
    chainFrom T 0 0 (calculateChunks T S C) = true ∧
      ((calculateChunks T S C).length : Int) ≤ S * 4 := by
  have hT1 : 1 ≤ T := by omega
  unfold calculateChunks
  rw [if_neg (by omega)]
  simp only
  set n := goDiv (T + C - 1) C with hn
  set m := S * 4 with hm
  have hm4 : 4 ≤ m := by omega
  have hnfacts := goDiv_ceil_facts T C hT1 hC
  rw [← hn] at hnfacts
  by_cases hcap : m < n
  · rw [if_pos hcap]
    have hcsfacts := goDiv_ceil_facts T m hT1 (by omega)
    set cs := goDiv (T + m - 1) m with hcs
    have hmnat : ((m.toNat : Int)) = m := Int.toNat_of_nonneg (by omega)
    have hchain := calcLoop_chain T cs hcsfacts.1 m.toNat 0 0 (by omega)
      (by
        rw [hmnat]
        have hcomm : cs * m = m * cs := mul_comm cs m
        linarith [hcsfacts.2])
    refine ⟨hchain.1, ?_⟩
    have := hchain.2
    omega
  · rw [if_neg hcap]
    have hnnat : ((n.toNat : Int)) = n := Int.toNat_of_nonneg (by omega)
    have hchain := calcLoop_chain T C hC n.toNat 0 0 (by omega)
      (by rw [hnnat]; linarith [hnfacts.2])
    refine ⟨hchain.1, ?_⟩
    have := hchain.2
    omega

theorem C1_calculateChunks_partition_witness :
    chainFrom 100 0 0 (calculateChunks 100 8 16) = true ∧
      ((calculateChunks 100 8 16).length : Int) ≤ 8 * 4 :=
  C1_calculateChunks_partition 100 8 16 (by norm_num) (by norm_num)
    (by norm_num)

/-- C8: for 0 < totalSize ≤ chunkSize, `calculateChunks` returns exactly one
chunk with index 0, start 0 and end `totalSize - 1`. -/
theorem C8_single_chunk (T S C : Int) (hT : 0 < T) (hTC : T ≤ C) :
    calculateChunks T S C = [⟨0, 0, T - 1⟩] := by
  simp [calculateChunks, hTC]

theorem C8_single_chunk_witness :
    calculateChunks 5 8 16 = [⟨0, 0, 4⟩] :=
  C8_single_chunk 5 8 16 (by norm_num) (by norm_num)

/-- C10: `calculateChunks` does not guard against `totalSize = 0` (which
violates the documented precondition `totalSize > 0`): it returns a single
chunk with start 0 and end -1, an empty ill-formed range with end < start. -/
theorem C10_zero_totalSize (S C : Int) (hC : 0 ≤ C) :
    calculateChunks 0 S C = [⟨0, 0, -1⟩] ∧
      ∀ c ∈ calculateChunks 0 S C, c.«end» < c.start := by
  have h : calculateChunks 0 S C = [⟨0, 0, -1⟩] := by
    simp [calculateChunks, hC]
  refine ⟨h, ?_⟩
  intro c hc
  rw [h] at hc
  simp at hc
  subst hc
  norm_num

theorem C10_zero_totalSize_witness :
    calculateChunks 0 8 16777216 = [⟨0, 0, -1⟩] ∧
      ∀ c ∈ calculateChunks 0 8 16777216, c.«end» < c.start :=
  C10_zero_totalSize 8 16777216 (by norm_num)

/-- C5 (amended): for every probe response with a determinable positive
content length whose `Accept-Ranges` header is absent or not `"bytes"`, the
job plans no chunks and starts no workers: it routes to the single-stream
fallback, which is not an error; in the authenticated variant (whose total
size is supplied by the caller) this holds for every such header value
regardless of the probed length. -/
theorem C5_fallback_on_no_range_support (resp : ProbeResponse)
    (ar : String) (T : Int) (config : MultiStreamConfig)
    (hlen : 0 < resp.contentLength) (har : resp.acceptRanges ≠ "bytes")
    (har2 : ar ≠ "bytes") :
    multiStreamPlan resp config = .singleStreamFallback ∧
    multiStreamAuthPlan ar T config = .singleStreamFallback ∧
    DownloadPath.singleStreamFallback ≠ DownloadPath.fatalNoLength := by
  refine ⟨?_, ?_, by simp⟩
  · rw [multiStreamPlan, if_neg (by omega), if_pos har]
  · rw [multiStreamAuthPlan, if_pos har2]

theorem C5_fallback_on_no_range_support_witness :
    multiStreamPlan ⟨1000, "none"⟩ DefaultMultiStreamConfig =
      .singleStreamFallback ∧
    multiStreamAuthPlan "" 1000 DefaultMultiStreamConfig =
      .singleStreamFallback ∧
    DownloadPath.singleStreamFallback ≠ DownloadPath.fatalNoLength :=
  C5_fallback_on_no_range_support ⟨1000, "none"⟩ "" 1000
    DefaultMultiStreamConfig (by norm_num) (by decide) (by decide)

/-- C5 counterexample: the claim quantifies over every probe response with a
missing or non-`"bytes"` `Accept-Ranges` header, but when the probe also
yields no content length (Go reports `ContentLength = -1`),
`MultiStreamDownload` returns the fatal no-Content-Length error instead of
routing to the single-stream fallback — and that is reported as an error. -/
theorem C5_no_length_takes_precedence_counterexample :
    multiStreamPlan ⟨-1, ""⟩ DefaultMultiStreamConfig = .fatalNoLength ∧
    multiStreamPlan ⟨-1, ""⟩ DefaultMultiStreamConfig ≠
      .singleStreamFallback := by
  decide

/-- C6: for every probe response from which no positive content length can
be determined (`resp.ContentLength <= 0`), `MultiStreamDownload` fails
fatally before any transfer begins: it takes the `fatalNoLength` route,
which plans no chunks, creates no output file and starts no workers. -/
theorem C6_fatal_without_content_length (resp : ProbeResponse)
    (config : MultiStreamConfig) (hlen : resp.contentLength ≤ 0) :
    multiStreamPlan resp config = .fatalNoLength := by
  rw [multiStreamPlan, if_pos hlen]

theorem C6_fatal_without_content_length_witness :
    multiStreamPlan ⟨0, "bytes"⟩ DefaultMultiStreamConfig = .fatalNoLength :=
  C6_fatal_without_content_length ⟨0, "bytes"⟩ DefaultMultiStreamConfig
    (by norm_num)

/-- C7: after all chunks resolve, the coordinator reconciles the recorded
errors: the job succeeds exactly when zero chunks recorded terminal errors,
and otherwise fails reporting the number of failed chunks (one recorded
error per failed chunk) together with the first recorded error as the
representative cause. -/
theorem C7_error_reconciliation :
    (∀ errs : List ChunkError, reconcile errs = .ok () ↔ errs = []) ∧
    (∀ (e : ChunkError) (es : List ChunkError),
      reconcile (e :: es) = .error (es.length + 1, e)) ∧
    (∀ results : List (Int × Bool),
      (collectErrors results).length =
        (results.filter fun p => !p.2).length) := by
  refine ⟨?_, ?_, ?_⟩
  · intro errs
    cases errs <;> simp [reconcile]
  · intro e es
    simp [reconcile]
  · intro results
    induction results with
    | nil => simp [collectErrors]
    | cons p ps ih =>
      rcases hp : p.2 with _ | _ <;>
        simp [collectErrors, List.filterMap_cons, hp, List.filter_cons] <;>
        simpa [collectErrors] using ih

end Vget
